import Mathlib

/-!
# Verification of the notebook acquisition-and-rendering pipeline

A shallow embedding of the `NotebookEmbedding` transformer (`src/notebook.ts`).
Strings are modelled as lists of characters so that the JavaScript string
operations (first-occurrence `String.replace`, per-character global regex
replacement, `includes`, `split(..)[0]`, template interpolation) can be
embedded as executable structural recursions.  Network, URL parsing and the
favicon `<link>`-tag scanner are external effects or capabilities of the
pipeline and appear as explicit oracle / function parameters.
-/

/-- Character-list model of JavaScript strings. -/
abbrev Str := List Char

/-- Literal conversion helper. -/
def str (s : String) : Str := s.toList

/-- The apostrophe character (U+0027), written by code point. -/
def apos : Char := Char.ofNat 39

/-- `isPre p s` is `true` iff `p` is a prefix of `s`
(character-by-character comparison). -/
def isPre : Str → Str → Bool
  | [], _ => true
  | _ :: _, [] => false
  | a :: as, b :: bs => a == b && isPre as bs

/-- Split `s` around the first occurrence of `pat`: `some (before, after)`
when `pat` occurs in `s`, `none` otherwise.  This is the search underlying
JavaScript `String.prototype.replace` with a string pattern (first
occurrence only) and `String.prototype.includes`. -/
def splitFirst (pat : Str) : Str → Option (Str × Str)
  | [] => if isPre pat [] then some ([], []) else none
  | c :: cs =>
    if isPre pat (c :: cs) then some ([], (c :: cs).drop pat.length)
    else
      match splitFirst pat cs with
      | some (p, q) => some (c :: p, q)
      | none => none

/-- JavaScript `s.replace(pat, rep)` with a string pattern: replace the
first occurrence only. -/
def replaceFirst (pat rep s : Str) : Str :=
  match splitFirst pat s with
  | some (p, q) => p ++ rep ++ q
  | none => s

/-- JavaScript `s.includes(pat)`. -/
def containsSub (pat s : Str) : Bool := (splitFirst pat s).isSome

/-- One global single-character replacement pass, the model of
`s.replace(/c/g, rep)` for a one-character pattern class. -/
def replaceAllChar (c : Char) (rep : Str) (s : Str) : Str :=
  s.flatMap fun a => if a = c then rep else [a]

/-- `escapeHtml` from `src/notebook.ts`: five sequential global
replacement passes, in source order ampersand, less-than, greater-than,
double quote, apostrophe. -/
def escapeHtml (text : Str) : Str :=
  replaceAllChar apos (str "&#x27;")
    (replaceAllChar '"' (str "&quot;")
      (replaceAllChar '>' (str "&gt;")
        (replaceAllChar '<' (str "&lt;")
          (replaceAllChar '&' (str "&amp;") text))))

/-- Specification-side single-pass entity map: the entity a single
character should be rendered as. -/
def entityOf (c : Char) : Str :=
  if c = '&' then str "&amp;"
  else if c = '<' then str "&lt;"
  else if c = '>' then str "&gt;"
  else if c = '"' then str "&quot;"
  else if c = apos then str "&#x27;"
  else [c]

/-! ## Notebook data model -/

/-- A loosely-typed JSON string field: either a plain string or an array of
string fragments (Jupyter stores cell sources and outputs both ways). -/
inductive JVal where
  | s (v : Str)
  | arr (vs : List Str)
deriving DecidableEq

/-- `Array.isArray(x) ? x.join(empty) : x` (join with the empty separator). -/
def interpJoin : JVal → Str
  | .s v => v
  | .arr vs => vs.flatten

/-- JavaScript template interpolation `${x}`: `String(array)` joins with
commas. -/
def interpComma : JVal → Str
  | .s v => v
  | .arr vs => List.intercalate (str ",") vs

/-- JavaScript truthiness of such a field: the empty string is falsy,
every other string and every array (even empty) is truthy. -/
def truthy : JVal → Bool
  | .s [] => false
  | .s (_ :: _) => true
  | .arr _ => true

/-- The `data` mapping of a `execute_result`/`display_data` output; each
MIME field independently optional (`none` = key absent). -/
structure DataMap where
  textPlain : Option JVal
  imagePng : Option JVal
  textHtml : Option JVal
deriving DecidableEq

/-- One entry of a code cell's `outputs` array. -/
structure OutputJ where
  output_type : Str
  text : Option JVal
  data : Option DataMap
  traceback : Option (List Str)
deriving DecidableEq

/-- The three-valued `execution_count` field: absent, explicit `null`, or
an integer. -/
inductive ECount where
  | absent
  | null
  | num (n : Int)
deriving DecidableEq

/-- One notebook cell. -/
structure NotebookCell where
  cell_type : Str
  source : JVal
  outputs : Option (List OutputJ)
  execution_count : ECount

/-- `formatOutput` from `src/notebook.ts`.  A `stream` output whose `text`
field is missing makes `escapeHtml(undefined)` throw a `TypeError` in the
source, modelled as `.error ()`; every other shape returns normally. -/
def formatOutput (output : OutputJ) : Except Unit Str :=
  if output.output_type = str "stream" then
    match output.text with
    | some v =>
      .ok (str "<div class=\"notebook-stream-output\"><pre>" ++
        escapeHtml (interpJoin v) ++ str "</pre></div>")
    | none => .error ()
  else if output.output_type = str "execute_result" ∨
      output.output_type = str "display_data" then
    match output.data with
    | some d =>
      let c1 := match d.textPlain with
        | some v =>
          if truthy v then
            str "<div class=\"notebook-text-output\"><pre>" ++
              escapeHtml (interpJoin v) ++ str "</pre></div>"
          else []
        | none => []
      let c2 := match d.imagePng with
        | some v =>
          if truthy v then
            str "<div class=\"notebook-image-output\"><img src=\"data:image/png;base64," ++
              interpComma v ++ str "\" alt=\"Plot output\" /></div>"
          else []
        | none => []
      let c3 := match d.textHtml with
        | some v =>
          if truthy v then
            str "<div class=\"notebook-html-output\">" ++ interpJoin v ++ str "</div>"
          else []
        | none => []
      .ok (c1 ++ c2 ++ c3)
    | none => .ok []
  else if output.output_type = str "error" then
    .ok (str "<div class=\"notebook-error-output\"><pre>" ++
      escapeHtml (match output.traceback with
        | some tb => List.intercalate (str "\n") tb
        | none => []) ++ str "</pre></div>")
  else .ok []

/-- The `for (const output of cell.outputs) outputsHtml += formatOutput(output)`
accumulation loop of `cellToHtml`. -/
def renderOutputs : List OutputJ → Str → Except Unit Str
  | [], acc => .ok acc
  | o :: os, acc =>
    match formatOutput o with
    | .ok s2 => renderOutputs os (acc ++ s2)
    | .error e => .error e

/-- The execution-count badge: `N` when the count is a number, a blank
badge when it is `null` or absent (`!== null && !== undefined`). -/
def executionLabel (ec : ECount) : Str :=
  match ec with
  | .num n => str "In [" ++ str (toString n) ++ str "]:"
  | _ => str "In [ ]:"

/-- The output-block badge, same three-valued rule. -/
def outputLabel (ec : ECount) : Str :=
  match ec with
  | .num n => str "Out[" ++ str (toString n) ++ str "]:"
  | _ => str "Out[ ]:"

/-- `markdownToHtml` from `src/notebook.ts`: the external remark pipeline
is the capability `proc`; on its failure the fallback is the escaped text
in a paragraph. -/
def markdownToHtml (proc : Str → Except Unit Str) (markdown : Str) : Str :=
  match proc markdown with
  | .ok v => v
  | .error _ => str "<p>" ++ escapeHtml markdown ++ str "</p>"

/-- The `codeBlock` template literal of `cellToHtml`. -/
def codeBlock (ec : ECount) (src : JVal) : Str :=
  str "\n        <div class=\"notebook-code-input\">\n          <div class=\"notebook-execution-count\">" ++
    executionLabel ec ++
    str "</div>\n          <div class=\"notebook-code-content\">\n            <pre><code class=\"language-python\">" ++
    escapeHtml (interpJoin src) ++
    str "</code></pre>\n          </div>\n        </div>"

/-- The opening of the outputs block (`outputsHtml` before the loop). -/
def outputsHeader (ec : ECount) : Str :=
  str "<div class=\"notebook-outputs\">\n          <div class=\"notebook-output-label\">" ++
    outputLabel ec ++ str "</div>\n          <div class=\"notebook-output-content\">"

/-- The per-cell wrapper `<div id="notebook-cell-N" class="notebook-cell
notebook-T-cell">...</div>`. -/
def cellWrap (ct : Str) (index : Nat) (content : Str) : Str :=
  str "<div id=\"notebook-cell-" ++ str (toString index) ++
    str "\" class=\"notebook-cell notebook-" ++ ct ++ str "-cell\">" ++ content ++
    str "</div>"

/-- `cellToHtml` from `src/notebook.ts`.  `md` is the (total, already
fallback-protected) markdown-to-HTML conversion. -/
def cellToHtml (md : Str → Str) (cell : NotebookCell) (index : Nat) : Except Unit Str :=
  let contentE : Except Unit Str :=
    if cell.cell_type = str "markdown" then
      .ok (str "<div class=\"notebook-markdown-cell\">" ++ md (interpJoin cell.source) ++
        str "</div>")
    else if cell.cell_type = str "code" then
      match cell.outputs with
      | some (o :: os) =>
        match renderOutputs (o :: os) (outputsHeader cell.execution_count) with
        | .ok outputsHtml =>
          .ok (codeBlock cell.execution_count cell.source ++ outputsHtml ++ str "</div></div>")
        | .error e => .error e
      | _ => .ok (codeBlock cell.execution_count cell.source)
    else .ok []
  contentE.map (cellWrap cell.cell_type index)

/-! ## URL normalization in `downloadNotebook` -/

/-- The raw URL computed at the top of `downloadNotebook`: substring-based
recognition (`url.includes`), then two first-occurrence `String.replace`
calls. -/
def downloadRawUrl (url : Str) : Str :=
  if containsSub (str "github.com") url && !containsSub (str "raw.githubusercontent.com") url then
    replaceFirst (str "/blob/") (str "/")
      (replaceFirst (str "github.com") (str "raw.githubusercontent.com") url)
  else url

/-- Modelled from the spec: the host of a link, "the scheme+host portion
of a URL" — the text between the scheme separator and the next slash. -/
def specHostOf (url : Str) : Option Str :=
  (splitFirst (str "://") url).map fun pr => pr.2.takeWhile (· ≠ '/')

/-- Modelled from the spec: "a link referencing a known hosting web UI
path containing a blob segment is rewritten to the equivalent raw-content
host and path with the blob segment removed; links already in raw form,
or from unrecognized hosts, pass through unchanged."  The known hosting
web UI is `github.com`. -/
def specNormalizeUrl (url : Str) : Str :=
  match specHostOf url with
  | some h =>
    if h = str "github.com" ∧ containsSub (str "/blob/") url = true then
      replaceFirst (str "/blob/") (str "/")
        (replaceFirst (str "github.com") (str "raw.githubusercontent.com") url)
    else url
  | none => url

/-! ## Cache key derivation (`cacheNotebook` / `loadCachedNotebook`) -/

/-- UTF-8 encoding of one code point (the byte sequence `Buffer.from`
produces; `Char` excludes surrogates, so the four standard ranges
suffice). -/
def utf8Char (n : Nat) : List Nat :=
  if n < 128 then [n]
  else if n < 2048 then [192 + n / 64, 128 + n % 64]
  else if n < 65536 then [224 + n / 4096, 128 + n / 64 % 64, 128 + n % 64]
  else [240 + n / 262144, 128 + n / 4096 % 64, 128 + n / 64 % 64, 128 + n % 64]

/-- `Buffer.from(url)`: the UTF-8 bytes of the string. -/
def utf8Bytes (s : Str) : List Nat := s.flatMap fun c => utf8Char c.toNat

/-- The standard base64 alphabet. -/
def b64Table : Str :=
  str "ABCDEFGHIJKLMNOPQRSTUVWXYZabcdefghijklmnopqrstuvwxyz0123456789+/"

def b64Char (n : Nat) : Char := b64Table.getD n '?'

/-- `Buffer.prototype.toString(base64)`: standard base64 with `=`
padding. -/
def base64Encode : List Nat → Str
  | [] => []
  | [a] => [b64Char (a / 4), b64Char (a % 4 * 16), '=', '=']
  | [a, b] => [b64Char (a / 4), b64Char (a % 4 * 16 + b / 16), b64Char (b % 16 * 4), '=']
  | a :: b :: c :: rest =>
    b64Char (a / 4) :: b64Char (a % 4 * 16 + b / 16) ::
      b64Char (b % 16 * 4 + c / 64) :: b64Char (c % 64) :: base64Encode rest

/-- The cache key: base64 of `Buffer.from(url)` with `/`, `+`, `=` each replaced by `_`.
The regex is a one-character class replaced globally by one character, a
per-character map. -/
def urlHash (url : Str) : Str :=
  (base64Encode (utf8Bytes url)).map fun c =>
    if c = '/' ∨ c = '+' ∨ c = '=' then '_' else c

/-- `path.join(dir, name)`.  Node's `path.join` also collapses separators,
but both cache functions call it with identical arguments, so the simple
model is enough for the properties below. -/
def pathJoin (a b : Str) : Str := a ++ str "/" ++ b

/-- The cache file path computed inside `cacheNotebook`. -/
def cacheNotebookPath (cacheDir url : Str) : Str :=
  pathJoin cacheDir (urlHash url ++ str ".json")

/-- The cache file path computed inside `loadCachedNotebook` (the source
duplicates the derivation). -/
def loadCachedNotebookPath (cacheDir url : Str) : Str :=
  pathJoin cacheDir (urlHash url ++ str ".json")

/-- Keyed-blob store capability: writing one file. -/
def storePut (store : Str → Option Str) (path content : Str) : Str → Option Str :=
  fun p => if p = path then some content else store p

/-! ## Icon candidates and `getBestIcon` -/

/-- One favicon candidate collected by the `<link rel=icon>` scanner:
`sizes` is the raw attribute value, with the sentinel `"unknown"` when the
attribute is absent; `href` is already absolute. -/
structure IconCand where
  sizes : Str
  href : Str
deriving DecidableEq

/-- JavaScript whitespace accepted by `parseInt` (the common ASCII
forms). -/
def isWhitespaceJs (c : Char) : Bool :=
  c = ' ' ∨ c = Char.ofNat 9 ∨ c = Char.ofNat 10 ∨ c = Char.ofNat 13 ∨
    c = Char.ofNat 11 ∨ c = Char.ofNat 12

def digitVal (c : Char) : Option Nat :=
  if '0' ≤ c ∧ c ≤ '9' then some (c.toNat - 48) else none

def hexVal (c : Char) : Option Nat :=
  if '0' ≤ c ∧ c ≤ '9' then some (c.toNat - 48)
  else if 'a' ≤ c ∧ c ≤ 'f' then some (c.toNat - 87)
  else if 'A' ≤ c ∧ c ≤ 'F' then some (c.toNat - 55)
  else none

def natOfDigits (base : Nat) (ds : List Nat) : Nat :=
  ds.foldl (fun acc d => acc * base + d) 0

/-- `parseInt(s)` with no radix argument: skip whitespace, optional sign,
auto-detect a `0x`/`0X` hex prefix, read leading digits, `NaN` (here
`none`) when no digit follows. -/
def jsParseInt (s : Str) : Option Int :=
  let t := s.dropWhile isWhitespaceJs
  let su : Int × Str :=
    match t with
    | '-' :: r => (-1, r)
    | '+' :: r => (1, r)
    | _ => (1, t)
  let bv : Nat × Str :=
    match su.2 with
    | '0' :: 'x' :: r => (16, r)
    | '0' :: 'X' :: r => (16, r)
    | _ => (10, su.2)
  let dv : Char → Option Nat := if bv.1 = 16 then hexVal else digitVal
  let digits := bv.2.takeWhile fun c => (dv c).isSome
  if digits = [] then none
  else some (su.1 * (natOfDigits bv.1 (digits.map fun c => (dv c).getD 0) : Int))

/-- The size stored in `sizeMap` for one candidate: 16 for the
absent-attribute sentinel, else `parseInt` of the first `x`-component of the first space-separated token, `|| 16`
(so an unparseable or zero first dimension also becomes 16). -/
def iconDeclSize (icon : IconCand) : Int :=
  if icon.sizes = str "unknown" then 16
  else
    match jsParseInt ((icon.sizes.takeWhile (· ≠ ' ')).takeWhile (· ≠ 'x')) with
    | some v => if v = 0 then 16 else v
    | none => 16

/-- `sizeMap.get(href)`: the map is keyed by `href`, so a later candidate
with the same `href` overwrites an earlier one — the lookup finds the last
matching candidate. -/
def sizeMapGet (icons : List IconCand) (href : Str) : Option Int :=
  (icons.reverse.find? fun i => i.href == href).map iconDeclSize

/-- The comparator key `sizeMap.get(x.href) || 16`. -/
def cmpSize (icons : List IconCand) (href : Str) : Int :=
  match sizeMapGet icons href with
  | some v => if v = 0 then 16 else v
  | none => 16

/-- `getBestIcon` from `src/notebook.ts`.  The source sorts a copy of the
list descending by `cmpSize` with `Array.prototype.sort` — stable with a
consistent comparator per ECMAScript — and takes element 0, i.e. the first
element attaining the maximal comparator key, modelled here directly as a
left fold with strict improvement.  On an empty list `sortedIcons[0].href`
is a `TypeError`, modelled as `none` (the caller guards the call with
`icons.length > 0`). -/
def getBestIcon (icons : List IconCand) : Option Str :=
  match icons with
  | [] => none
  | first :: rest =>
    some ((rest.foldl (fun best i =>
      if cmpSize icons i.href > cmpSize icons best.href then i else best) first).href)

/-! ## Favicon resolution (`getFaviconUrl`) -/

/-- The result of the platform `new URL(..)` parse: the fields the source
reads. -/
structure URLM where
  protocol : Str
  hostname : Str

/-- Outcome of one `fetch` GET: success with a body, a non-ok status, or a
thrown network/timeout error. -/
inductive FetchRes where
  | ok (body : Str)
  | notOk
  | threw

/-- Network capability: GET (with body) and the HEAD existence probe
(`true` iff the response is ok; a thrown probe behaves the same as a
non-ok one — both merely continue the chain). -/
structure Net where
  get : Str → FetchRes
  headOk : Str → Bool

/-- `generateLetterFavicon`: deterministic inline SVG data URI bearing the
uppercased first character of the domain (`charAt(0)` of the empty string
is the empty string). -/
def generateLetterFavicon (domain : Str) : Str :=
  let firstLetter : Str :=
    match domain with
    | [] => []
    | c :: _ => [c.toUpper]
  let svgContent :=
    str "<svg width=\"32\" height=\"32\" xmlns=\"http://www.w3.org/2000/svg\">\n      <rect width=\"100%\" height=\"100%\" fill=\"#6366f1\" rx=\"4\"/>\n      <text x=\"50%\" y=\"50%\" font-size=\"18\" font-family=\"system-ui,sans-serif\" font-weight=\"600\" text-anchor=\"middle\" dominant-baseline=\"middle\" fill=\"white\">" ++
      firstLetter ++ str "</text>\n    </svg>"
  str "data:image/svg+xml;base64," ++ base64Encode (utf8Bytes svgContent)

/-- `getFaviconUrl` from `src/notebook.ts`.  `pfl` is the `<link>`-tag
scanner `parseFaviconLinks` (a total string-scanning function, passed as a
capability), `purl` the platform URL parser.  The first `new URL(sourceUrl)`
sits inside the guarded `try` block; the second one (`const domain = new
URL(sourceUrl).hostname`, line 525) runs after the catch and is unguarded:
its failure is modelled as `.error ()` — a `TypeError` thrown to the
caller. -/
def getFaviconUrl (pfl : Str → URLM → List IconCand) (net : Net)
    (purl : Str → Option URLM) (sourceUrl : Str) : Except Unit Str :=
  let step1 : Option Str :=
    match purl sourceUrl with
    | none => none
    | some url =>
      match net.get (url.protocol ++ str "//" ++ url.hostname) with
      | .ok html =>
        match getBestIcon (pfl html url) with
        | some best => some best
        | none => none
      | _ => none
  match step1 with
  | some icon => .ok icon
  | none =>
    match purl sourceUrl with
    | none => .error ()
    | some url2 =>
      let domain := url2.hostname
      let fallbackSources : List Str :=
        [str "https://www.google.com/s2/favicons?domain=" ++ domain ++ str "&sz=32",
          str "https://icons.duckduckgo.com/ip3/" ++ domain ++ str ".ico",
          url2.protocol ++ str "//" ++ domain ++ str "/favicon.ico"]
      match fallbackSources.find? net.headOk with
      | some u => .ok u
      | none => .ok (generateLetterFavicon domain)

/-! ## The link processor (`htmlPlugins` visit callback) -/

/-- A `hast` property value: string or string list (`className`). -/
inductive PropVal where
  | str (v : Str)
  | list (vs : List Str)
deriving DecidableEq

/-- A `hast` node: element with tag, properties and children, or text. -/
inductive HChild where
  | text (value : Str)
  | element (tagName : Str) (properties : List (Str × PropVal)) (children : List HChild)

def tagOf : HChild → Str
  | .element t _ _ => t
  | .text _ => []

def propsOf : HChild → List (Str × PropVal)
  | .element _ p _ => p
  | .text _ => []

def childrenOf : HChild → List HChild
  | .element _ _ c => c
  | .text _ => []

/-- Property lookup on a JS object modelled as a unique-key association
list. -/
def getProp : List (Str × PropVal) → Str → Option PropVal
  | [], _ => none
  | kv :: rest, key => if kv.1 == key then some kv.2 else getProp rest key

/-- `{ ...props, key: v }`: overriding an existing key keeps its position
and replaces its value wholesale; a new key is appended.  JS object keys
are unique, so replacing the first occurrence is the spread semantics. -/
def setProp : List (Str × PropVal) → Str → PropVal → List (Str × PropVal)
  | [], key, v => [(key, v)]
  | kv :: rest, key, v =>
    if kv.1 == key then (kv.1, v) :: rest else kv :: setProp rest key v

/-- The per-link mutation of the visit callback, applied once the
acquisition pipeline has settled: `resolved = some frag` carries the
rendered notebook fragment already parsed back into nodes (`fromHtml`),
`none` means no notebook document was obtained. -/
def processNode (node : HChild) (href : Str) (resolved : Option (List HChild)) : HChild :=
  match resolved with
  | some frag =>
    .element (str "div")
      [(str "className", .list [str "notebook-wrapper-container"]),
        (str "data-notebook-url", .str href)]
      frag
  | none =>
    match node with
    | .element t p c =>
      .element t (setProp p (str "className") (.list [str "notebook-link-unavailable"])) c
    | .text v => .text v

/-- All qualifying links are processed: each node only with its own
outcome. -/
def processLinks (ps : List (HChild × Str × Option (List HChild))) : List HChild :=
  ps.map fun t => processNode t.1 t.2.1 t.2.2

/-! ## Theorems -/

-- Basic lemmas about the string toolkit.

theorem replaceAllChar_append (c : Char) (rep : Str) (x y : Str) :
    replaceAllChar c rep (x ++ y) = replaceAllChar c rep x ++ replaceAllChar c rep y := by
  simp [replaceAllChar]

theorem escapeHtml_append (x y : Str) :
    escapeHtml (x ++ y) = escapeHtml x ++ escapeHtml y := by
  simp [escapeHtml, replaceAllChar_append]

theorem escapeHtml_singleton_of_plain (a : Char) (h1 : a ≠ '&') (h2 : a ≠ '<')
    (h3 : a ≠ '>') (h4 : a ≠ '"') (h5 : a ≠ apos) :
    escapeHtml [a] = [a] := by
  simp [escapeHtml, replaceAllChar, h1, h2, h3, h4, h5]

theorem isPre_nil_iff (pat : Str) : isPre pat [] = true ↔ pat = [] := by
  cases pat <;> simp [isPre]

theorem isPre_eq_true_iff (pat : Str) : ∀ s : Str, isPre pat s = true ↔ ∃ t, s = pat ++ t := by
  induction pat with
  | nil => intro s; simp [isPre]
  | cons a as ih =>
    intro s
    cases s with
    | nil =>
      constructor
      · intro h; exact absurd h (by simp [isPre])
      · rintro ⟨t, ht⟩
        exact absurd ht.symm (List.cons_ne_nil a (as ++ t))
    | cons b bs =>
      simp only [isPre, Bool.and_eq_true, beq_iff_eq, ih bs]
      constructor
      · rintro ⟨rfl, t, rfl⟩; exact ⟨t, rfl⟩
      · rintro ⟨t, ht⟩
        rw [List.cons_append] at ht
        injection ht with h1 h2
        exact ⟨h1.symm, t, h2⟩

theorem isPre_append_self (pat t : Str) : isPre pat (pat ++ t) = true :=
  (isPre_eq_true_iff pat (pat ++ t)).mpr ⟨t, rfl⟩

theorem splitFirst_eq_some (pat : Str) :
    ∀ s p q : Str, splitFirst pat s = some (p, q) → s = p ++ pat ++ q := by
  intro s
  induction s with
  | nil =>
    intro p q h
    simp only [splitFirst] at h
    by_cases hp : isPre pat [] = true
    · rw [if_pos hp] at h
      obtain ⟨rfl, rfl⟩ := Prod.mk.injEq .. ▸ Option.some.injEq .. ▸ h
      rw [(isPre_nil_iff pat).mp hp]; rfl
    · rw [if_neg hp] at h; exact absurd h (Option.noConfusion)
  | cons c cs ih =>
    intro p q h
    simp only [splitFirst] at h
    by_cases hp : isPre pat (c :: cs) = true
    · rw [if_pos hp] at h
      obtain ⟨t, ht⟩ := (isPre_eq_true_iff pat (c :: cs)).mp hp
      obtain ⟨rfl, rfl⟩ := Prod.mk.injEq .. ▸ Option.some.injEq .. ▸ h
      rw [List.nil_append, ht, List.drop_left]
    · rw [if_neg hp] at h
      cases hrec : splitFirst pat cs with
      | none => rw [hrec] at h; exact absurd h (Option.noConfusion)
      | some pq =>
        obtain ⟨p', q'⟩ := pq
        rw [hrec] at h
        obtain ⟨rfl, rfl⟩ := Prod.mk.injEq .. ▸ Option.some.injEq .. ▸ h
        rw [ih p' q' hrec]; rfl

theorem splitFirst_isSome_of_append (pat : Str) :
    ∀ p q : Str, (splitFirst pat (p ++ pat ++ q)).isSome = true := by
  intro p
  induction p with
  | nil =>
    intro q
    rw [List.nil_append]
    cases hs : pat ++ q with
    | nil =>
      obtain ⟨rfl, rfl⟩ := List.append_eq_nil.mp hs
      simp [splitFirst, isPre]
    | cons c cs =>
      rw [splitFirst, if_pos (hs ▸ isPre_append_self pat q)]
      rfl
  | cons c cs ih =>
    intro q
    rw [List.cons_append, List.cons_append, splitFirst]
    by_cases hp : isPre pat (c :: (cs ++ pat ++ q)) = true
    · rw [if_pos hp]; rfl
    · rw [if_neg hp]
      have := ih q
      cases hrec : splitFirst pat (cs ++ pat ++ q) with
      | none => rw [hrec] at this; exact absurd this (by simp)
      | some pq => obtain ⟨p', q'⟩ := pq; rfl

/-- `containsSub pat s` holds exactly when `pat` occurs as a contiguous
substring of `s`. -/
theorem containsSub_iff (pat s : Str) :
    containsSub pat s = true ↔ ∃ p q, s = p ++ pat ++ q := by
  constructor
  · intro h
    obtain ⟨⟨p, q⟩, hpq⟩ := Option.isSome_iff_exists.mp h
    exact ⟨p, q, splitFirst_eq_some pat s p q hpq⟩
  · rintro ⟨p, q, rfl⟩
    exact splitFirst_isSome_of_append pat p q

theorem splitFirst_append_self (pat t : Str) : splitFirst pat (pat ++ t) = some ([], t) := by
  cases hs : pat ++ t with
  | nil =>
    obtain ⟨rfl, rfl⟩ := List.append_eq_nil.mp hs
    rfl
  | cons c cs =>
    rw [← hs, hs, splitFirst, if_pos (hs ▸ isPre_append_self pat t), ← hs, List.drop_left]

/-- A mismatch between `pat` and `t` inside `t`'s own characters rules out
`pat` being a prefix of `t ++ b` for every continuation `b`. -/
theorem isPre_eq_false_of_mismatch (pat t b : Str) (i : Nat)
    (hip : i < pat.length) (hit : i < t.length)
    (hne : pat.getD i ' ' ≠ t.getD i ' ') : isPre pat (t ++ b) = false := by
  by_contra hcon
  have htrue : isPre pat (t ++ b) = true := by
    cases h : isPre pat (t ++ b)
    · exact absurd h hcon
    · rfl
  obtain ⟨u, hu⟩ := (isPre_eq_true_iff pat (t ++ b)).mp htrue
  have h1 : (t ++ b).getD i ' ' = pat.getD i ' ' := by
    rw [hu, List.getD_append _ _ _ _ hip]
  have h2 : (t ++ b).getD i ' ' = t.getD i ' ' := List.getD_append _ _ _ _ hit
  exact hne (h1.symm.trans h2)

/-- `mm pat t` finds a position where `pat` and `t` disagree within the
length of both. -/
def mm (pat t : Str) : Bool :=
  (List.range (min pat.length t.length)).any fun i => !(pat.getD i ' ' == t.getD i ' ')

/-- `cleanB pat a` checks that every nonempty suffix of `a` disagrees with
`pat` somewhere inside `a`'s own characters, so no occurrence of `pat` in
`a ++ b` can start inside `a`. -/
def cleanB (pat : Str) : Str → Bool
  | [] => true
  | c :: cs => mm pat (c :: cs) && cleanB pat cs

theorem isPre_eq_false_of_mm (pat t b : Str) (h : mm pat t = true) :
    isPre pat (t ++ b) = false := by
  obtain ⟨i, hi, hne⟩ := List.any_eq_true.mp h
  have hilt := List.mem_range.mp hi
  exact isPre_eq_false_of_mismatch pat t b i
    (lt_of_lt_of_le hilt (min_le_left ..))
    (lt_of_lt_of_le hilt (min_le_right ..))
    (by simpa using hne)

/-- Searching for `pat` in `a ++ b` skips over a prefix `a` that is clean
for `pat`: the search result is the search result in `b`, shifted. -/
theorem splitFirst_append_of_cleanB (pat : Str) :
    ∀ a b : Str, cleanB pat a = true →
      splitFirst pat (a ++ b) =
        (splitFirst pat b).map (fun pr => (a ++ pr.1, pr.2)) := by
  intro a
  induction a with
  | nil =>
    intro b _
    rw [List.nil_append]
    cases h : splitFirst pat b with
    | none => rfl
    | some pq => obtain ⟨p, q⟩ := pq; rfl
  | cons c cs ih =>
    intro b hc
    obtain ⟨hmm, hcs⟩ := Bool.and_eq_true .. ▸ hc
    rw [List.cons_append]
    simp only [splitFirst]
    rw [if_neg (by rw [← List.cons_append, isPre_eq_false_of_mm pat (c :: cs) b hmm]; simp),
      ih b hcs]
    cases h : splitFirst pat b with
    | none => rfl
    | some pq => obtain ⟨p, q⟩ := pq; rfl

/-- `escapeHtml` is a single pass: each input character is mapped to its
entity exactly once and the results are concatenated.  In particular no
entity introduced by an earlier pass is re-encoded by a later one. -/
theorem escapeHtml_eq_bind_entityOf (s : Str) : escapeHtml s = s.flatMap entityOf := by
  induction s with
  | nil => rfl
  | cons a s ih =>
    have hsplit : a :: s = [a] ++ s := rfl
    rw [hsplit, escapeHtml_append, List.flatMap_append]
    have head : escapeHtml [a] = entityOf a := by
      by_cases h1 : a = '&'
      · subst h1; rfl
      by_cases h2 : a = '<'
      · subst h2; rfl
      by_cases h3 : a = '>'
      · subst h3; rfl
      by_cases h4 : a = '"'
      · subst h4; rfl
      by_cases h5 : a = apos
      · subst h5; rfl
      rw [escapeHtml_singleton_of_plain a h1 h2 h3 h4 h5]
      simp [entityOf, h1, h2, h3, h4, h5]
    rw [head, ih]
    simp

theorem containsSub_eq_true_of_eq (pat s p q : Str) (h : s = p ++ pat ++ q) :
    containsSub pat s = true := by
  subst h; exact splitFirst_isSome_of_append pat p q

theorem renderOutputs_prefix : ∀ (outs : List OutputJ) (acc r : Str),
    renderOutputs outs acc = .ok r → ∃ t, r = acc ++ t := by
  intro outs
  induction outs with
  | nil =>
    intro acc r h
    refine ⟨[], ?_⟩
    cases h
    simp
  | cons o os ih =>
    intro acc r h
    simp only [renderOutputs] at h
    cases hf : formatOutput o with
    | ok s2 =>
      rw [hf] at h
      obtain ⟨t, ht⟩ := ih (acc ++ s2) r h
      exact ⟨s2 ++ t, by rw [ht]; simp⟩
    | error e => rw [hf] at h; exact absurd h (by simp)

/-! ### C8: cache key determinism and write/read path agreement -/

/-- C8: for every link string, `cacheNotebook` and `loadCachedNotebook`
derive the same cache file path — the key is a pure function of the link
(base64 of its bytes with `/`, `+`, `=` replaced by `_`), so a read after a
successful write for the same link addresses the very file the write
produced; a concrete key is computed to pin the derivation down. -/
theorem cachePath_write_read_agree :
    (∀ cacheDir url : Str, cacheNotebookPath cacheDir url = loadCachedNotebookPath cacheDir url) ∧
    (∀ (store : Str → Option Str) (cacheDir url content : Str),
      storePut store (cacheNotebookPath cacheDir url) content
        (loadCachedNotebookPath cacheDir url) = some content) ∧
    urlHash (str "https://github.com/org/repo/blob/main/nb.ipynb") =
      str "aHR0cHM6Ly9naXRodWIuY29tL29yZy9yZXBvL2Jsb2IvbWFpbi9uYi5pcHluYg__" :=
  ⟨fun _ _ => rfl,
   fun store cacheDir url content => by
     rw [show loadCachedNotebookPath cacheDir url = cacheNotebookPath cacheDir url from rfl]
     simp [storePut],
   by decide⟩

/-! ### C4: escaping is exactly-once, at every raw text insertion point -/

/-- C4: `escapeHtml` maps each occurrence of the five HTML-unsafe
characters (ampersand, angle brackets, double quote, apostrophe) to its
entity exactly once with no double-encoding — it equals the single-pass
per-character entity map — the script-tag example of the spec is
computed, and the escaping is what the source inserts at the three raw
text insertion points: code source, stream output and error traceback. -/
theorem escapeHtml_exactly_once_at_insertion_points :
    (∀ s : Str, escapeHtml s = s.flatMap entityOf) ∧
    escapeHtml (str "<script>&\"" ++ [apos] ++ str "</script>") =
      str "&lt;script&gt;&amp;&quot;&#x27;&lt;/script&gt;" ∧
    (∀ v : JVal, formatOutput ⟨str "stream", some v, none, none⟩ =
      .ok (str "<div class=\"notebook-stream-output\"><pre>" ++
        escapeHtml (interpJoin v) ++ str "</pre></div>")) ∧
    (∀ tb : List Str, formatOutput ⟨str "error", none, none, some tb⟩ =
      .ok (str "<div class=\"notebook-error-output\"><pre>" ++
        escapeHtml (List.intercalate (str "\n") tb) ++ str "</pre></div>")) ∧
    (∀ (md : Str → Str) (src : JVal) (ec : ECount) (i : Nat), ∃ p q : Str,
      cellToHtml md ⟨str "code", src, none, ec⟩ i =
        .ok (p ++ escapeHtml (interpJoin src) ++ q)) := by
  refine ⟨escapeHtml_eq_bind_entityOf, by decide, fun v => rfl, fun tb => rfl, ?_⟩
  intro md src ec i
  refine ⟨str "<div id=\"notebook-cell-" ++ str (toString i) ++
    str "\" class=\"notebook-cell notebook-" ++ str "code" ++ str "-cell\">" ++
    str "\n        <div class=\"notebook-code-input\">\n          <div class=\"notebook-execution-count\">" ++
    executionLabel ec ++
    str "</div>\n          <div class=\"notebook-code-content\">\n            <pre><code class=\"language-python\">",
    str "</code></pre>\n          </div>\n        </div>" ++ str "</div>", ?_⟩
  have e : cellToHtml md ⟨str "code", src, none, ec⟩ i =
      .ok (cellWrap (str "code") i (codeBlock ec src)) := rfl
  rw [e]
  simp [cellWrap, codeBlock, List.append_assoc]

/-! ### C10: present-but-empty outputs render exactly like absent outputs -/

set_option maxRecDepth 8000 in
/-- C10: a code cell whose `outputs` field is the empty list produces no
output block and no `Out` label: its rendering is identical to the same
cell with `outputs` absent (the guard is `cell.outputs &&
cell.outputs.length > 0`), checked concretely on a cell whose markup
provably lacks the `notebook-outputs` container. -/
theorem cellToHtml_empty_outputs_eq_absent :
    (∀ (md : Str → Str) (src : JVal) (ec : ECount) (i : Nat),
      cellToHtml md ⟨str "code", src, some [], ec⟩ i =
        cellToHtml md ⟨str "code", src, none, ec⟩ i) ∧
    cellToHtml (fun s => s) ⟨str "code", .s (str "print(1)"), some [], .num 1⟩ 0 =
      .ok (cellWrap (str "code") 0 (codeBlock (.num 1) (.s (str "print(1)")))) ∧
    containsSub (str "notebook-outputs")
      (cellWrap (str "code") 0 (codeBlock (.num 1) (.s (str "print(1)")))) = false :=
  ⟨fun _ _ _ _ => rfl, rfl, by decide⟩

/-! ### C9: unknown cell and output shapes yield empty fragments -/

/-- C9: a cell whose type is neither `markdown` nor `code` renders as the
wrapper container with empty content; an output of unrecognized type, or a
`execute_result`/`display_data` output without a `data` mapping, renders
as the empty string — never an error that aborts the rest. -/
theorem unknown_shapes_render_empty :
    (∀ (md : Str → Str) (ct : Str) (src : JVal) (outs : Option (List OutputJ))
        (ec : ECount) (i : Nat), ct ≠ str "markdown" → ct ≠ str "code" →
      cellToHtml md ⟨ct, src, outs, ec⟩ i = .ok (cellWrap ct i [])) ∧
    (∀ o : OutputJ, o.output_type ≠ str "stream" → o.output_type ≠ str "execute_result" →
      o.output_type ≠ str "display_data" → o.output_type ≠ str "error" →
      formatOutput o = .ok []) ∧
    (∀ o : OutputJ, (o.output_type = str "execute_result" ∨
        o.output_type = str "display_data") → o.data = none → formatOutput o = .ok []) := by
  refine ⟨?_, ?_, ?_⟩
  · intro md ct src outs ec i h1 h2
    simp only [cellToHtml]
    rw [if_neg h1, if_neg h2]
    rfl
  · intro o h1 h2 h3 h4
    simp only [formatOutput]
    rw [if_neg h1, if_neg (by rintro (h | h); exact h2 h; exact h3 h), if_neg h4]
  · intro o hor hd
    simp only [formatOutput]
    rw [if_neg (by rcases hor with h | h <;> rw [h] <;> decide), if_pos hor, hd]

/-- Witness for C9 at concrete inputs: a `raw` cell, a `bogus` output and
a dataless `display_data` output. -/
theorem unknown_shapes_render_empty_witness :
    cellToHtml (fun s => s) ⟨str "raw", .s [], none, .absent⟩ 2 = .ok (cellWrap (str "raw") 2 []) ∧
    formatOutput ⟨str "bogus", none, none, none⟩ = .ok [] ∧
    formatOutput ⟨str "display_data", none, none, none⟩ = .ok [] :=
  ⟨unknown_shapes_render_empty.1 (fun s => s) (str "raw") (.s []) none .absent 2
      (by decide) (by decide),
   unknown_shapes_render_empty.2.1 ⟨str "bogus", none, none, none⟩
      (by decide) (by decide) (by decide) (by decide),
   unknown_shapes_render_empty.2.2 ⟨str "display_data", none, none, none⟩ (Or.inr rfl) rfl⟩

/-! ### C3: three-valued execution count labels -/

/-- Structural form of a rendered code cell: the `In`-badge always occurs
between explicit context strings, and the `Out`-badge occurs whenever the
outputs block was rendered. -/
theorem cellToHtml_code_labels (md : Str → Str) (src : JVal) (outs : Option (List OutputJ))
    (ec : ECount) (i : Nat) (h : Str)
    (hc : cellToHtml md ⟨str "code", src, outs, ec⟩ i = .ok h) :
    (∃ p q : Str, h = p ++ executionLabel ec ++ q) ∧
    (∀ o os, outs = some (o :: os) → ∃ p q : Str, h = p ++ outputLabel ec ++ q) := by
  cases outs with
  | none =>
    have e : cellToHtml md ⟨str "code", src, none, ec⟩ i =
        .ok (cellWrap (str "code") i (codeBlock ec src)) := rfl
    rw [e] at hc
    injection hc with hh
    constructor
    · refine ⟨str "<div id=\"notebook-cell-" ++ str (toString i) ++
        str "\" class=\"notebook-cell notebook-" ++ str "code" ++ str "-cell\">" ++
        str "\n        <div class=\"notebook-code-input\">\n          <div class=\"notebook-execution-count\">",
        str "</div>\n          <div class=\"notebook-code-content\">\n            <pre><code class=\"language-python\">" ++
        escapeHtml (interpJoin src) ++ str "</code></pre>\n          </div>\n        </div>" ++
        str "</div>", ?_⟩
      rw [← hh]
      simp [cellWrap, codeBlock, List.append_assoc]
    · intro o os heq
      exact absurd heq (by simp)
  | some l =>
    cases l with
    | nil =>
      have e : cellToHtml md ⟨str "code", src, some [], ec⟩ i =
          .ok (cellWrap (str "code") i (codeBlock ec src)) := rfl
      rw [e] at hc
      injection hc with hh
      constructor
      · refine ⟨str "<div id=\"notebook-cell-" ++ str (toString i) ++
          str "\" class=\"notebook-cell notebook-" ++ str "code" ++ str "-cell\">" ++
          str "\n        <div class=\"notebook-code-input\">\n          <div class=\"notebook-execution-count\">",
          str "</div>\n          <div class=\"notebook-code-content\">\n            <pre><code class=\"language-python\">" ++
          escapeHtml (interpJoin src) ++ str "</code></pre>\n          </div>\n        </div>" ++
          str "</div>", ?_⟩
        rw [← hh]
        simp [cellWrap, codeBlock, List.append_assoc]
      · intro o os heq
        injection heq with heq2
        exact absurd heq2 (by simp)
    | cons o os =>
      have e : cellToHtml md ⟨str "code", src, some (o :: os), ec⟩ i =
          (match renderOutputs (o :: os) (outputsHeader ec) with
           | .ok oh => Except.ok (codeBlock ec src ++ oh ++ str "</div></div>")
           | .error e2 => Except.error e2).map (cellWrap (str "code") i) := rfl

      rw [e] at hc
      cases hr : renderOutputs (o :: os) (outputsHeader ec) with
      | error e2 => rw [hr] at hc; exact absurd hc (by simp [Except.map])
      | ok oh =>
        rw [hr] at hc
        simp only [Except.map] at hc
        injection hc with hh
        obtain ⟨t, rfl⟩ := renderOutputs_prefix _ _ _ hr
        constructor
        · refine ⟨str "<div id=\"notebook-cell-" ++ str (toString i) ++
            str "\" class=\"notebook-cell notebook-" ++ str "code" ++ str "-cell\">" ++
            str "\n        <div class=\"notebook-code-input\">\n          <div class=\"notebook-execution-count\">",
            str "</div>\n          <div class=\"notebook-code-content\">\n            <pre><code class=\"language-python\">" ++
            escapeHtml (interpJoin src) ++ str "</code></pre>\n          </div>\n        </div>" ++
            (outputsHeader ec ++ t) ++ str "</div></div>" ++ str "</div>", ?_⟩
          rw [← hh]
          simp [cellWrap, codeBlock, List.append_assoc]
        · intro o' os' _
          refine ⟨str "<div id=\"notebook-cell-" ++ str (toString i) ++
            str "\" class=\"notebook-cell notebook-" ++ str "code" ++ str "-cell\">" ++
            codeBlock ec src ++
            str "<div class=\"notebook-outputs\">\n          <div class=\"notebook-output-label\">",
            str "</div>\n          <div class=\"notebook-output-content\">" ++ t ++
            str "</div></div>" ++ str "</div>", ?_⟩
          rw [← hh]
          simp [cellWrap, outputsHeader, List.append_assoc]

/-- C3: a code cell is labeled `In [N]:` when the execution count is the
number `N` and `In [ ]:` when it is `null` or absent (rendering null and
absent identically), and a rendered output block carries the matching
`Out[N]:`/`Out[ ]:` label under the same three-valued rule. -/
theorem cellToHtml_three_valued_execution_count :
    (∀ (md : Str → Str) (src : JVal) (outs : Option (List OutputJ)) (i : Nat) (n : Int) (h : Str),
      cellToHtml md ⟨str "code", src, outs, .num n⟩ i = .ok h →
      containsSub (str "In [" ++ str (toString n) ++ str "]:") h = true) ∧
    (∀ (md : Str → Str) (src : JVal) (outs : Option (List OutputJ)) (i : Nat),
      cellToHtml md ⟨str "code", src, outs, .null⟩ i =
        cellToHtml md ⟨str "code", src, outs, .absent⟩ i) ∧
    (∀ (md : Str → Str) (src : JVal) (outs : Option (List OutputJ)) (i : Nat) (h : Str),
      cellToHtml md ⟨str "code", src, outs, .null⟩ i = .ok h →
      containsSub (str "In [ ]:") h = true) ∧
    (∀ (md : Str → Str) (src : JVal) (o : OutputJ) (os : List OutputJ) (i : Nat) (n : Int) (h : Str),
      cellToHtml md ⟨str "code", src, some (o :: os), .num n⟩ i = .ok h →
      containsSub (str "Out[" ++ str (toString n) ++ str "]:") h = true) ∧
    (∀ (md : Str → Str) (src : JVal) (o : OutputJ) (os : List OutputJ) (i : Nat) (h : Str),
      cellToHtml md ⟨str "code", src, some (o :: os), .null⟩ i = .ok h →
      containsSub (str "Out[ ]:") h = true) := by
  refine ⟨?_, fun _ _ _ _ => rfl, ?_, ?_, ?_⟩
  · intro md src outs i n h hc
    obtain ⟨p, q, hpq⟩ := (cellToHtml_code_labels md src outs _ i h hc).1
    exact containsSub_eq_true_of_eq _ h p q hpq
  · intro md src outs i h hc
    obtain ⟨p, q, hpq⟩ := (cellToHtml_code_labels md src outs _ i h hc).1
    exact containsSub_eq_true_of_eq _ h p q hpq
  · intro md src o os i n h hc
    obtain ⟨p, q, hpq⟩ := (cellToHtml_code_labels md src _ _ i h hc).2 o os rfl
    exact containsSub_eq_true_of_eq _ h p q hpq
  · intro md src o os i h hc
    obtain ⟨p, q, hpq⟩ := (cellToHtml_code_labels md src _ _ i h hc).2 o os rfl
    exact containsSub_eq_true_of_eq _ h p q hpq

set_option maxRecDepth 16000 in
/-- Witness for C3: concrete cells with counts `5`, `null` and a stream
output under counts `1` and `null`. -/
theorem cellToHtml_three_valued_execution_count_witness :
    containsSub (str "In [" ++ str (toString (5 : Int)) ++ str "]:")
      (cellWrap (str "code") 0 (codeBlock (.num 5) (.s (str "x")))) = true ∧
    containsSub (str "In [ ]:")
      (cellWrap (str "code") 0 (codeBlock .null (.s (str "x")))) = true ∧
    containsSub (str "Out[" ++ str (toString (1 : Int)) ++ str "]:")
      (cellWrap (str "code") 0 (codeBlock (.num 1) (.s (str "x")) ++
        (outputsHeader (.num 1) ++ (str "<div class=\"notebook-stream-output\"><pre>" ++
          escapeHtml (str "1\n") ++ str "</pre></div>")) ++ str "</div></div>")) = true ∧
    containsSub (str "Out[ ]:")
      (cellWrap (str "code") 0 (codeBlock .null (.s (str "x")) ++
        (outputsHeader .null ++ (str "<div class=\"notebook-stream-output\"><pre>" ++
          escapeHtml (str "1\n") ++ str "</pre></div>")) ++ str "</div></div>")) = true :=
  ⟨cellToHtml_three_valued_execution_count.1 (fun s => s) (.s (str "x")) none 0 5
      (cellWrap (str "code") 0 (codeBlock (.num 5) (.s (str "x")))) rfl,
   cellToHtml_three_valued_execution_count.2.2.1 (fun s => s) (.s (str "x")) none 0
      (cellWrap (str "code") 0 (codeBlock .null (.s (str "x")))) rfl,
   cellToHtml_three_valued_execution_count.2.2.2.1 (fun s => s) (.s (str "x"))
      ⟨str "stream", some (.s (str "1\n")), none, none⟩ [] 0 1
      (cellWrap (str "code") 0 (codeBlock (.num 1) (.s (str "x")) ++
        (outputsHeader (.num 1) ++ (str "<div class=\"notebook-stream-output\"><pre>" ++
          escapeHtml (str "1\n") ++ str "</pre></div>")) ++ str "</div></div>")) rfl,
   cellToHtml_three_valued_execution_count.2.2.2.2 (fun s => s) (.s (str "x"))
      ⟨str "stream", some (.s (str "1\n")), none, none⟩ [] 0
      (cellWrap (str "code") 0 (codeBlock .null (.s (str "x")) ++
        (outputsHeader .null ++ (str "<div class=\"notebook-stream-output\"><pre>" ++
          escapeHtml (str "1\n") ++ str "</pre></div>")) ++ str "</div></div>")) rfl⟩

/-! ### C5: result/display output rendering order and presence -/

/-- Counterexample to C5 as stated: an output whose data mapping contains
`text/plain` (with the empty-string value) and `image/png`.  The claim
says every present format is rendered; the source guard
`if (output.data[..])` is a truthiness test, the empty string is falsy,
so the present `text/plain` entry is skipped — the result is the image
wrapper alone and contains no `notebook-text-output` wrapper at all. -/
theorem formatOutput_skips_present_falsy_format :
    formatOutput ⟨str "display_data", none,
        some ⟨some (.s []), some (.s (str "abc")), none⟩, none⟩ =
      .ok (str "<div class=\"notebook-image-output\"><img src=\"data:image/png;base64," ++
        str "abc" ++ str "\" alt=\"Plot output\" /></div>") ∧
    containsSub (str "notebook-text-output")
      (str "<div class=\"notebook-image-output\"><img src=\"data:image/png;base64," ++
        str "abc" ++ str "\" alt=\"Plot output\" /></div>") = false := by
  constructor
  · rfl
  · decide

/-- C5 (amended): a `execute_result`/`display_data` output renders every
format present *with a truthy value* (a non-empty string, or any array —
an empty-string value is present but skipped), concatenated in the fixed
order `text/plain`, `image/png`, `text/html`; in particular when all three
are present and truthy all three render in that order. -/
theorem formatOutput_renders_truthy_formats_in_order :
    ∀ (ot : Str) (txt : Option JVal) (tb : Option (List Str)) (d : DataMap) (tp ip hp : JVal),
      (ot = str "execute_result" ∨ ot = str "display_data") →
      d.textPlain = some tp → truthy tp = true →
      d.imagePng = some ip → truthy ip = true →
      d.textHtml = some hp → truthy hp = true →
      formatOutput ⟨ot, txt, some d, tb⟩ =
        .ok ((str "<div class=\"notebook-text-output\"><pre>" ++ escapeHtml (interpJoin tp) ++
            str "</pre></div>") ++
          (str "<div class=\"notebook-image-output\"><img src=\"data:image/png;base64," ++
            interpComma ip ++ str "\" alt=\"Plot output\" /></div>") ++
          (str "<div class=\"notebook-html-output\">" ++ interpJoin hp ++ str "</div>")) := by
  intro ot txt tb d tp ip hp hot htp htt hip hti hhp hth
  obtain ⟨dtp, dip, dhp⟩ := d
  simp only at htp hip hhp
  subst htp; subst hip; subst hhp
  have hne : ¬(ot = str "stream") := by
    rcases hot with rfl | rfl <;> decide
  simp only [formatOutput]
  rw [if_neg hne, if_pos hot]
  simp [htt, hti, hth]

/-- Witness for C5 (amended) at a concrete all-three output. -/
theorem formatOutput_renders_truthy_formats_in_order_witness :
    formatOutput ⟨str "display_data", none,
        some ⟨some (.s (str "t")), some (.s (str "img")), some (.s (str "<b>h</b>"))⟩, none⟩ =
      .ok ((str "<div class=\"notebook-text-output\"><pre>" ++
          escapeHtml (interpJoin (.s (str "t"))) ++ str "</pre></div>") ++
        (str "<div class=\"notebook-image-output\"><img src=\"data:image/png;base64," ++
          interpComma (.s (str "img")) ++ str "\" alt=\"Plot output\" /></div>") ++
        (str "<div class=\"notebook-html-output\">" ++ interpJoin (.s (str "<b>h</b>")) ++
          str "</div>")) :=
  formatOutput_renders_truthy_formats_in_order (str "display_data") none none
    ⟨some (.s (str "t")), some (.s (str "img")), some (.s (str "<b>h</b>"))⟩
    (.s (str "t")) (.s (str "img")) (.s (str "<b>h</b>"))
    (Or.inr rfl) rfl (by decide) rfl (by decide) rfl (by decide)

/-! ### C2: URL normalization before fetching -/

/-- Counterexample to C2 as stated: the source recognizes GitHub links by
the substring test `url.includes` with pattern `github.com`, not by host.  This link
has the unrecognized host `example.com` (so the claim says it is fetched
unchanged, as the spec-modelled rule `specNormalizeUrl` confirms), yet the
code rewrites it because `github.com` occurs in its path. -/
theorem downloadRawUrl_rewrites_unrecognized_host :
    specHostOf (str "https://example.com/github.com/blob/a.ipynb") = some (str "example.com") ∧
    specNormalizeUrl (str "https://example.com/github.com/blob/a.ipynb") =
      str "https://example.com/github.com/blob/a.ipynb" ∧
    downloadRawUrl (str "https://example.com/github.com/blob/a.ipynb") =
      str "https://example.com/raw.githubusercontent.com/a.ipynb" ∧
    downloadRawUrl (str "https://example.com/github.com/blob/a.ipynb") ≠
      str "https://example.com/github.com/blob/a.ipynb" := by
  refine ⟨by decide, by decide, by decide, by decide⟩

/-- C2 (amended): recognition is substring-based.  A link containing
neither `github.com` nor already in raw form passes through unchanged; a
link containing `raw.githubusercontent.com` passes through unchanged; and
a genuine GitHub web-UI link `https://github.com/<rest>` (with no second
`github.com` or `raw.githubusercontent.com` occurrence in `<rest>`) is
rewritten to the raw-content host with its first `/blob/` segment
collapsed to `/`. -/
theorem downloadRawUrl_normalization :
    (∀ url : Str, containsSub (str "github.com") url = false → downloadRawUrl url = url) ∧
    (∀ url : Str, containsSub (str "raw.githubusercontent.com") url = true →
      downloadRawUrl url = url) ∧
    (∀ rest : Str, containsSub (str "raw.githubusercontent.com") rest = false →
      downloadRawUrl (str "https://github.com/" ++ rest) =
        str "https://raw.githubusercontent.com" ++
          replaceFirst (str "/blob/") (str "/") (str "/" ++ rest)) := by
  refine ⟨?_, ?_, ?_⟩
  · intro url h
    simp [downloadRawUrl, h]
  · intro url h
    simp [downloadRawUrl, h]
  · intro rest hr
    have hA : str "https://github.com/" = str "https://" ++ (str "github.com" ++ str "/") := by
      decide
    have hsplitG : splitFirst (str "github.com") (str "https://github.com/" ++ rest) =
        some (str "https://", str "/" ++ rest) := by
      rw [hA, List.append_assoc, splitFirst_append_of_cleanB _ _ _ (by decide),
        List.append_assoc, splitFirst_append_self]
      simp
    have hrawrest : splitFirst (str "raw.githubusercontent.com") rest = none := by
      cases hh : splitFirst (str "raw.githubusercontent.com") rest with
      | none => rfl
      | some pq =>
        rw [containsSub, hh] at hr
        exact absurd hr (by simp)
    have hrawsplit : splitFirst (str "raw.githubusercontent.com")
        (str "https://github.com/" ++ rest) = none := by
      rw [splitFirst_append_of_cleanB _ _ _ (by decide), hrawrest]
      rfl
    have hcond1 : containsSub (str "github.com") (str "https://github.com/" ++ rest) = true := by
      rw [containsSub, hsplitG]; rfl
    have hcond2 : containsSub (str "raw.githubusercontent.com")
        (str "https://github.com/" ++ rest) = false := by
      rw [containsSub, hrawsplit]; rfl
    have hrepl1 : replaceFirst (str "github.com") (str "raw.githubusercontent.com")
        (str "https://github.com/" ++ rest) =
        str "https://raw.githubusercontent.com" ++ (str "/" ++ rest) := by
      rw [replaceFirst, hsplitG]
      show (str "https://" ++ str "raw.githubusercontent.com") ++ (str "/" ++ rest) = _
      rw [show str "https://" ++ str "raw.githubusercontent.com" =
        str "https://raw.githubusercontent.com" from by decide]
    simp only [downloadRawUrl, hcond1, hcond2, Bool.not_false, Bool.and_true, if_true]
    rw [hrepl1]
    simp only [replaceFirst]
    rw [splitFirst_append_of_cleanB _ _ _ (by decide)]
    cases hsp : splitFirst (str "/blob/") (str "/" ++ rest) with
    | none => simp
    | some pq =>
      obtain ⟨p, q⟩ := pq
      simp [List.append_assoc]

/-- Witness for C2 (amended) on the spec's own end-to-end example link
and on a non-GitHub link. -/
theorem downloadRawUrl_normalization_witness :
    containsSub (str "raw.githubusercontent.com") (str "org/repo/blob/main/nb.ipynb") = false ∧
    downloadRawUrl (str "https://github.com/" ++ str "org/repo/blob/main/nb.ipynb") =
      str "https://raw.githubusercontent.com" ++
        replaceFirst (str "/blob/") (str "/") (str "/" ++ str "org/repo/blob/main/nb.ipynb") ∧
    containsSub (str "github.com") (str "https://colab.research.google.com/nb.ipynb") = false ∧
    downloadRawUrl (str "https://colab.research.google.com/nb.ipynb") =
      str "https://colab.research.google.com/nb.ipynb" :=
  ⟨by decide,
   downloadRawUrl_normalization.2.2 (str "org/repo/blob/main/nb.ipynb") (by decide),
   by decide,
   downloadRawUrl_normalization.1 (str "https://colab.research.google.com/nb.ipynb") (by decide)⟩

/-! ### C6: best-icon selection -/

/-- Counterexample to C6 as stated: `sizeMap` is keyed by `href`, so the
second candidate (same `href` `"a"`, no declared size) overwrites the
declared 32 of the first.  The unique candidate of maximal declared size
(32) has href `"a"`, yet `getBestIcon` returns `"b"` (whose size is
only 24). -/
theorem getBestIcon_duplicate_href_not_maximal :
    getBestIcon [⟨str "32x32", str "a"⟩, ⟨str "unknown", str "a"⟩, ⟨str "24x24", str "b"⟩] =
      some (str "b") ∧
    iconDeclSize ⟨str "32x32", str "a"⟩ = 32 ∧
    iconDeclSize ⟨str "unknown", str "a"⟩ = 16 ∧
    iconDeclSize ⟨str "24x24", str "b"⟩ = 24 ∧
    str "b" ≠ str "a" := by
  refine ⟨by decide, by decide, by decide, by decide, by decide⟩

theorem foldl_best_mem (key : IconCand → Int) :
    ∀ (rest : List IconCand) (first : IconCand),
      rest.foldl (fun b i => if key i > key b then i else b) first = first ∨
        rest.foldl (fun b i => if key i > key b then i else b) first ∈ rest := by
  intro rest
  induction rest with
  | nil => intro first; exact Or.inl rfl
  | cons i r ih =>
    intro first
    simp only [List.foldl_cons]
    by_cases hk : key i > key first
    · rw [if_pos hk]
      rcases ih i with h | h
      · exact Or.inr (by rw [h]; exact List.mem_cons_self i r)
      · exact Or.inr (List.mem_cons_of_mem _ h)
    · rw [if_neg hk]
      rcases ih first with h | h
      · exact Or.inl h
      · exact Or.inr (List.mem_cons_of_mem _ h)

theorem foldl_best_le (key : IconCand → Int) :
    ∀ (rest : List IconCand) (first j : IconCand), (j = first ∨ j ∈ rest) →
      key j ≤ key (rest.foldl (fun b i => if key i > key b then i else b) first) := by
  intro rest
  induction rest with
  | nil =>
    intro first j hj
    rcases hj with hjf | h
    · rw [hjf]; exact le_refl _
    · exact absurd h (List.not_mem_nil j)
  | cons i r ih =>
    intro first j hj
    simp only [List.foldl_cons]
    by_cases hk : key i > key first
    · rw [if_pos hk]
      have hbase : key i ≤
          key (r.foldl (fun b x => if key x > key b then x else b) i) := ih i i (Or.inl rfl)
      rcases hj with hjf | hj
      · rw [hjf]; exact le_trans (le_of_lt hk) hbase
      · rcases List.mem_cons.mp hj with hji | hj'
        · rw [hji]; exact hbase
        · exact ih i j (Or.inr hj')
    · rw [if_neg hk]
      rcases hj with hjf | hj
      · rw [hjf]; exact ih first first (Or.inl rfl)
      · rcases List.mem_cons.mp hj with hji | hj'
        · rw [hji]; exact le_trans (not_lt.mp hk) (ih first first (Or.inl rfl))
        · exact ih first j (Or.inr hj')

theorem find?_unique_href :
    ∀ (l : List IconCand), l.Pairwise (fun a b => a.href ≠ b.href) →
      ∀ i ∈ l, l.find? (fun x => x.href == i.href) = some i := by
  intro l
  induction l with
  | nil => intro _ i hi; exact absurd hi (List.not_mem_nil i)
  | cons a l' ih =>
    intro hp i hi
    rcases List.mem_cons.mp hi with rfl | hi'
    · rw [List.find?_cons_of_pos _ (by simp)]
    · have hne : a.href ≠ i.href := (List.pairwise_cons.mp hp).1 i hi'
      rw [List.find?_cons_of_neg _ (by simp [hne])]
      exact ih (List.pairwise_cons.mp hp).2 i hi'

theorem iconDeclSize_ne_zero (i : IconCand) : iconDeclSize i ≠ 0 := by
  by_cases hu : i.sizes = str "unknown"
  · simp [iconDeclSize, hu]
  · simp only [iconDeclSize, if_neg hu]
    cases hj : jsParseInt ((i.sizes.takeWhile (· ≠ ' ')).takeWhile (· ≠ 'x')) with
    | none => decide
    | some v =>
      by_cases hv : v = 0
      · simp [hv]
      · simp [hv]

theorem cmpSize_of_distinct (icons : List IconCand)
    (hp : icons.Pairwise (fun a b => a.href ≠ b.href)) (i : IconCand) (hi : i ∈ icons) :
    cmpSize icons i.href = iconDeclSize i := by
  have hrev : icons.reverse.Pairwise (fun a b => a.href ≠ b.href) :=
    (List.pairwise_reverse).mpr (hp.imp fun h => Ne.symm h)
  have hf := find?_unique_href icons.reverse hrev i (List.mem_reverse.mpr hi)
  have hshape : cmpSize icons i.href = if iconDeclSize i = 0 then 16 else iconDeclSize i := by
    simp only [cmpSize, sizeMapGet, hf]
    rfl
  rw [hshape, if_neg (iconDeclSize_ne_zero i)]

/-- C6 (amended): on candidate lists with pairwise-distinct hrefs,
`getBestIcon` returns the href of a candidate of maximal size, where the
size of a candidate is `parseInt` of the first `x`-component of the first
space-separated token of its `sizes` attribute, with an undeclared
(`unknown` sentinel), unparseable, or zero first dimension defaulting to
16; with a duplicated href a later candidate's size overwrites an earlier
one's (the counterexample), ties keep the earliest candidate. -/
theorem getBestIcon_max_of_distinct_hrefs (icons : List IconCand) (hne : icons ≠ [])
    (hp : icons.Pairwise (fun a b => a.href ≠ b.href)) :
    ∃ i, i ∈ icons ∧ getBestIcon icons = some i.href ∧
      ∀ j ∈ icons, iconDeclSize j ≤ iconDeclSize i := by
  cases icons with
  | nil => exact absurd rfl hne
  | cons first rest =>
    have hbm : rest.foldl (fun b i =>
        if cmpSize (first :: rest) i.href > cmpSize (first :: rest) b.href then i else b) first ∈
        first :: rest := by
      rcases foldl_best_mem (fun x => cmpSize (first :: rest) x.href) rest first with h | h
      · rw [h]; exact List.mem_cons_self first rest
      · exact List.mem_cons_of_mem _ h
    refine ⟨_, hbm, rfl, ?_⟩
    intro j hj
    have hkey := foldl_best_le (fun x => cmpSize (first :: rest) x.href) rest first j
      (by rcases List.mem_cons.mp hj with rfl | h; exact Or.inl rfl; exact Or.inr h)
    have h1 := cmpSize_of_distinct (first :: rest) hp j hj
    have h2 := cmpSize_of_distinct (first :: rest) hp _ hbm
    rw [← h1, ← h2]
    exact hkey

/-- Witness for C6 (amended) on a two-candidate list with distinct
hrefs. -/
theorem getBestIcon_max_of_distinct_hrefs_witness :
    ∃ i, i ∈ [(⟨str "32x32", str "a"⟩ : IconCand), ⟨str "16x16", str "b"⟩] ∧
      getBestIcon [⟨str "32x32", str "a"⟩, ⟨str "16x16", str "b"⟩] = some i.href ∧
      ∀ j ∈ [(⟨str "32x32", str "a"⟩ : IconCand), ⟨str "16x16", str "b"⟩],
        iconDeclSize j ≤ iconDeclSize i :=
  getBestIcon_max_of_distinct_hrefs [⟨str "32x32", str "a"⟩, ⟨str "16x16", str "b"⟩]
    (by decide) (by decide)

/-! ### C1: favicon resolution never fails -/

/-- Counterexample to C1 as stated: on a source link that the platform URL
parser rejects, the guarded first `new URL` failure is caught, but the
second, unguarded `new URL(sourceUrl)` at the start of the fallback stage
throws a `TypeError` to the caller — `getFaviconUrl` does not return an
icon for every source link string. -/
theorem getFaviconUrl_throws_on_unparseable_url :
    getFaviconUrl (fun _ _ => []) ⟨fun _ => .threw, fun _ => false⟩ (fun _ => none)
      (str "not a url") = .error () := rfl

/-- C1 (amended): for every source link that parses as a URL,
`getFaviconUrl` returns an icon reference and never throws — every
network or scan failure in the strategy chain is caught locally and the
synthetic letter icon is the guaranteed terminal fallback; only an
unparseable link makes the unguarded fallback-stage URL re-parse throw. -/
theorem getFaviconUrl_ok_of_parseable_url :
    ∀ (pfl : Str → URLM → List IconCand) (net : Net) (purl : Str → Option URLM)
      (sourceUrl : Str) (u : URLM), purl sourceUrl = some u →
      (getFaviconUrl pfl net purl sourceUrl).isOk = true := by
  intro pfl net purl sourceUrl u hp
  simp only [getFaviconUrl, hp]
  cases hg : net.get (u.protocol ++ str "//" ++ u.hostname) with
  | ok html =>
    cases hb : getBestIcon (pfl html u) with
    | some best => simp [hb, Except.isOk, Except.toBool]
    | none =>
      cases hf : List.find? net.headOk
          [str "https://www.google.com/s2/favicons?domain=" ++ u.hostname ++ str "&sz=32",
            str "https://icons.duckduckgo.com/ip3/" ++ u.hostname ++ str ".ico",
            u.protocol ++ str "//" ++ u.hostname ++ str "/favicon.ico"] with
      | some v => simp [hb, hf, Except.isOk, Except.toBool]
      | none => simp [hb, hf, Except.isOk, Except.toBool]
  | notOk =>
    cases hf : List.find? net.headOk
        [str "https://www.google.com/s2/favicons?domain=" ++ u.hostname ++ str "&sz=32",
          str "https://icons.duckduckgo.com/ip3/" ++ u.hostname ++ str ".ico",
          u.protocol ++ str "//" ++ u.hostname ++ str "/favicon.ico"] with
    | some v => simp [hf, Except.isOk, Except.toBool]
    | none => simp [hf, Except.isOk, Except.toBool]
  | threw =>
    cases hf : List.find? net.headOk
        [str "https://www.google.com/s2/favicons?domain=" ++ u.hostname ++ str "&sz=32",
          str "https://icons.duckduckgo.com/ip3/" ++ u.hostname ++ str ".ico",
          u.protocol ++ str "//" ++ u.hostname ++ str "/favicon.ico"] with
    | some v => simp [hf, Except.isOk, Except.toBool]
    | none => simp [hf, Except.isOk, Except.toBool]

/-- Witness for C1 (amended): a parseable link, a network whose every
request throws and whose every probe fails — the call still returns
(with the synthetic letter icon). -/
theorem getFaviconUrl_ok_of_parseable_url_witness :
    (getFaviconUrl (fun _ _ => []) ⟨fun _ => .threw, fun _ => false⟩
      (fun _ => some ⟨str "https:", str "x.com"⟩) (str "https://x.com/nb.ipynb")).isOk = true :=
  getFaviconUrl_ok_of_parseable_url (fun _ _ => []) ⟨fun _ => .threw, fun _ => false⟩
    (fun _ => some ⟨str "https:", str "x.com"⟩) (str "https://x.com/nb.ipynb")
    ⟨str "https:", str "x.com"⟩ rfl

/-! ### C7: link fallback marking and replacement -/

/-- Counterexample to C7 as stated: the unresolved branch executes
`node.properties = { ...node.properties, className: [..] }`, which does
not *add* the unavailable marker to the existing class list — it replaces
the `className` value wholesale, so the anchor's previous class `fancy` is
dropped. -/
theorem processNode_drops_existing_classes :
    getProp (propsOf (processNode
        (.element (str "a")
          [(str "href", .str (str "x.ipynb")), (str "className", .list [str "fancy"])]
          [.text (str "click")])
        (str "x.ipynb") none)) (str "className") =
      some (.list [str "notebook-link-unavailable"]) ∧
    str "fancy" ∉ [str "notebook-link-unavailable"] := by
  refine ⟨by decide, by decide⟩

theorem getProp_setProp_self : ∀ (p : List (Str × PropVal)) (k : Str) (v : PropVal),
    getProp (setProp p k v) k = some v := by
  intro p k v
  induction p with
  | nil => simp [setProp, getProp]
  | cons kv rest ih =>
    simp only [setProp]
    by_cases hk : kv.1 == k
    · rw [if_pos hk]
      simp only [getProp]
      rw [if_pos hk]
    · rw [if_neg hk]
      simp only [getProp]
      rw [if_neg hk]
      exact ih

theorem getProp_setProp_ne : ∀ (p : List (Str × PropVal)) (k : Str) (v : PropVal) (key : Str),
    key ≠ k → getProp (setProp p k v) key = getProp p key := by
  intro p k v
  induction p with
  | nil =>
    intro key hk
    simp only [setProp, getProp]
    rw [if_neg fun hcon => hk (beq_iff_eq.mp hcon).symm]
  | cons kv rest ih =>
    intro key hk
    simp only [setProp]
    by_cases hkk : kv.1 == k
    · rw [if_pos hkk]
      simp only [getProp]
      have hne : ¬((kv.1 == key) = true) := fun hcon =>
        hk ((beq_iff_eq.mp hcon).symm.trans (beq_iff_eq.mp hkk))
      rw [if_neg hne, if_neg hne]
    · rw [if_neg hkk]
      simp only [getProp]
      by_cases hkey : kv.1 == key
      · rw [if_pos hkey, if_pos hkey]
      · rw [if_neg hkey, if_neg hkey]
        exact ih key hk

/-- C7 (amended): an unresolved `.ipynb` anchor keeps its tag, children
(visible text) and every other property, and its `className` property is
set to exactly the single unavailable marker class (replacing, not
extending, any previous class list); a resolved anchor becomes a `div`
wrapper carrying the parsed rendered fragment as children, the wrapper
class, and the source link in `data-notebook-url`; and each link's
outcome depends only on its own node and resolution. -/
theorem processNode_marks_and_replaces :
    (∀ (t : Str) (p : List (Str × PropVal)) (c : List HChild) (href : Str),
      tagOf (processNode (.element t p c) href none) = t ∧
      childrenOf (processNode (.element t p c) href none) = c) ∧
    (∀ (t : Str) (p : List (Str × PropVal)) (c : List HChild) (href key : Str),
      key ≠ str "className" →
      getProp (propsOf (processNode (.element t p c) href none)) key = getProp p key) ∧
    (∀ (t : Str) (p : List (Str × PropVal)) (c : List HChild) (href : Str),
      getProp (propsOf (processNode (.element t p c) href none)) (str "className") =
        some (.list [str "notebook-link-unavailable"])) ∧
    (∀ (node : HChild) (href : Str) (frag : List HChild),
      tagOf (processNode node href (some frag)) = str "div" ∧
      childrenOf (processNode node href (some frag)) = frag ∧
      getProp (propsOf (processNode node href (some frag))) (str "data-notebook-url") =
        some (.str href) ∧
      getProp (propsOf (processNode node href (some frag))) (str "className") =
        some (.list [str "notebook-wrapper-container"])) ∧
    (∀ (ps ps' : List (HChild × Str × Option (List HChild))) (i : Nat),
      ps[i]? = ps'[i]? → (processLinks ps)[i]? = (processLinks ps')[i]?) := by
  refine ⟨fun t p c href => ⟨rfl, rfl⟩, ?_, ?_,
    fun node href frag => ⟨rfl, rfl, rfl, rfl⟩, ?_⟩
  · intro t p c href key hk
    exact getProp_setProp_ne p (str "className") (.list [str "notebook-link-unavailable"]) key hk
  · intro t p c href
    exact getProp_setProp_self p (str "className") (.list [str "notebook-link-unavailable"])
  · intro ps ps' i h
    simp only [processLinks, List.getElem?_map, h]

/-- Witness for C7 (amended) on a concrete anchor node. -/
theorem processNode_marks_and_replaces_witness :
    tagOf (processNode (.element (str "a") [(str "href", .str (str "x.ipynb"))]
        [.text (str "click")]) (str "x.ipynb") none) = str "a" ∧
    getProp (propsOf (processNode (.element (str "a") [(str "href", .str (str "x.ipynb"))]
        [.text (str "click")]) (str "x.ipynb") none)) (str "href") =
      getProp [(str "href", PropVal.str (str "x.ipynb"))] (str "href") ∧
    (processLinks [])[0]? = (processLinks [])[0]? :=
  ⟨(processNode_marks_and_replaces.1 (str "a") [(str "href", .str (str "x.ipynb"))]
      [.text (str "click")] (str "x.ipynb")).1,
   processNode_marks_and_replaces.2.1 (str "a") [(str "href", .str (str "x.ipynb"))]
      [.text (str "click")] (str "x.ipynb") (str "href") (by decide),
   processNode_marks_and_replaces.2.2.2.2 [] [] 0 rfl⟩
